import Mathlib

/-!
Verification development for the knowledge-graph retrieval engine of
adapti-learn-backend (`src/knowledge_graph/retriever.py`, with its schema in
`src/knowledge_graph/schema.py` and the HTTP validation layer in
`src/api/graph_api.py`).

The Neo4j-backed retriever is embedded shallowly: the graph store is a list of
nodes and a list of directed typed edges; each Cypher query of the retriever is
translated into a pure function over that store.  Node match order models the
store's scan order (list order) and `collect(...)` order models edge scan
order, matching the row/aggregation order the driver hands back to the Python
layer.  A Python result dict holding a node's properties is an `OutRec`; the
`labels` field is `some ls` when the Python code added a `"labels"` key and
`none` when it returned the bare property dict.
-/

namespace AdaptiLearn

/-- Node labels, from `schema.py` (`NodeLabel`). -/
inductive NodeLabel
  | level
  | topic
  | subtopic
deriving DecidableEq

/-- The string value of a node label (`NodeLabel(str, Enum)` in `schema.py`). -/
def NodeLabel.value : NodeLabel → String
  | .level => "Level"
  | .topic => "Topic"
  | .subtopic => "Subtopic"

/-- A stored graph node: opaque store identity `id`, a `name`, its stored
label set, and the properties the retriever reads (`difficulty`, `order`). -/
structure Node where
  id : Nat
  name : String
  labels : List String
  difficulty : Option String
  order : Option Nat
deriving DecidableEq

/-- A stored directed relationship with its type string and optional weight. -/
structure Edge where
  src : Nat
  dst : Nat
  relType : String
  weight : Option Nat
deriving DecidableEq

/-- The graph store: externally loaded, read-only for the retriever. -/
structure Graph where
  nodes : List Node
  edges : List Edge
deriving DecidableEq

/-- A node record as returned to the caller: the property dict, plus the
`labels` entry when the Python code added one (`none` = no `"labels"` key). -/
structure OutRec where
  name : String
  difficulty : Option String
  order : Option Nat
  labels : Option (List String)
deriving DecidableEq

/-- `dict(node)` followed by `node_dict["labels"] = list(node.labels)`. -/
def nodeOut (n : Node) : OutRec :=
  ⟨n.name, n.difficulty, n.order, some n.labels⟩

/-- A bare `dict(node)` with no `"labels"` key added. -/
def rawOut (n : Node) : OutRec :=
  ⟨n.name, n.difficulty, n.order, none⟩

/-- `dict(t)` with the hardcoded `topic_dict["labels"] = ["Topic"]`. -/
def topicOut (n : Node) : OutRec :=
  ⟨n.name, n.difficulty, n.order, some ["Topic"]⟩

/-- `dict(s)` with the hardcoded `subtopic_dict["labels"] = ["Subtopic"]`. -/
def subtopicOut (n : Node) : OutRec :=
  ⟨n.name, n.difficulty, n.order, some ["Subtopic"]⟩

/-- `dict(l)` with the hardcoded `level_dict["labels"] = ["Level"]`. -/
def levelOut (n : Node) : OutRec :=
  ⟨n.name, n.difficulty, n.order, some ["Level"]⟩

/-- Contiguous-sublist test on character lists. -/
def listInfix (needle : List Char) : List Char → Bool
  | [] => needle.isEmpty
  | c :: t => needle.isPrefixOf (c :: t) || listInfix needle t

/-- Cypher `toLower(s)`: lowercase every character (`Char.toLower`, as
`String.toLower` does character-wise). -/
def lowerStr (s : String) : String :=
  ⟨s.data.map Char.toLower⟩

/-- Cypher `toLower(hay) CONTAINS toLower(needle)`. -/
def strContains (hay needle : String) : Bool :=
  listInfix (lowerStr needle).data (lowerStr hay).data

/-- Cypher `toLower(a) = toLower(b)` on two strings. -/
def eqCI (a b : String) : Bool :=
  lowerStr a == lowerStr b

/-- The WHERE conditions assembled by `search_nodes`: label membership via the
node pattern `(n:Label)`, name containment, case-insensitive difficulty
equality (a null `n.difficulty` never equals a given difficulty). -/
def matchesSearch (nameQ : Option String) (labelQ : Option NodeLabel)
    (difficultyQ : Option String) (n : Node) : Bool :=
  (match labelQ with
   | some L => n.labels.contains L.value
   | none => true) &&
  (match nameQ with
   | some q => strContains n.name q
   | none => true) &&
  (match difficultyQ with
   | some dq =>
     (match n.difficulty with
      | some nd => eqCI nd dq
      | none => false)
   | none => true)

/-- Order used by `ORDER BY n.name`: lexicographic on the name's character
sequence (the order `String.le` denotes). -/
def nameLe (a b : Node) : Prop := a.name.data ≤ b.name.data

instance : DecidableRel nameLe := fun a b =>
  inferInstanceAs (Decidable (a.name.data ≤ b.name.data))

instance : IsTotal Node nameLe := ⟨fun a b => le_total a.name.data b.name.data⟩

instance : IsTrans Node nameLe := ⟨fun _ _ _ h h' => le_trans h h'⟩

/-- `search_nodes`: filter, `ORDER BY n.name`, `LIMIT $limit`, then convert
each node to a dict and add its stored label list. -/
def searchNodes (G : Graph) (nameQ : Option String) (labelQ : Option NodeLabel)
    (difficultyQ : Option String) (limit : Nat) : List OutRec :=
  (((G.nodes.filter (matchesSearch nameQ labelQ difficultyQ)).insertionSort
      nameLe).take limit).map nodeOut

/-- `get_node_details`: case-insensitive full-name equality, `LIMIT 1`,
labels added from `labels(n)`. -/
def getNodeDetails (G : Graph) (q : String) : Option OutRec :=
  (G.nodes.find? (fun n => eqCI n.name q)).map nodeOut

/-- The rows of `MATCH (n) WHERE toLower(n.name) CONTAINS toLower($q)`,
in store scan order. -/
def nameMatches (G : Graph) (q : String) : List Node :=
  G.nodes.filter (fun n => strContains n.name q)

/-- The rows of the topic match in `get_topic_with_subtopics`. -/
def topicMatches (G : Graph) (q : String) : List Node :=
  G.nodes.filter (fun n => n.labels.contains "Topic" && strContains n.name q)

/-- The rows of the source match in `get_related_by_difficulty`
(name containment plus `n.difficulty IS NOT NULL`). -/
def difficultyMatches (G : Graph) (q : String) : List Node :=
  G.nodes.filter (fun n => strContains n.name q && n.difficulty.isSome)

/-- Result of `get_topic_with_subtopics` when a topic matched. -/
structure TopicEnvelope where
  topic : OutRec
  subtopics : List OutRec
  subtopic_count : Nat
deriving DecidableEq

/-- The nodes collected by `OPTIONAL MATCH (t)-[:HAS_SUBTOPIC]->(s:Subtopic)`
for a given topic node, in edge scan order. -/
def subtopicNodes (G : Graph) (t : Node) : List Node :=
  G.edges.filterMap (fun ed =>
    if ed.src == t.id && ed.relType == "HAS_SUBTOPIC" then
      G.nodes.find? (fun m => m.id == ed.dst && m.labels.contains "Subtopic")
    else none)

/-- `get_topic_with_subtopics`: first node labelled `Topic` whose name
contains the query; `None` (no envelope at all) when nothing matches. -/
def getTopicWithSubtopics (G : Graph) (q : String) : Option TopicEnvelope :=
  match (topicMatches G q).head? with
  | none => none
  | some t =>
    some { topic := topicOut t
           subtopics := (subtopicNodes G t).map subtopicOut
           subtopic_count := ((subtopicNodes G t).map subtopicOut).length }

/-- Result envelope of `get_prerequisites`. -/
structure PrereqEnvelope where
  node : Option OutRec
  prerequisites : List OutRec
  prerequisite_count : Nat
deriving DecidableEq

/-- The nodes collected by `OPTIONAL MATCH (prereq)-[:PREREQUISITE_FOR]->(n)`
for a given node, in edge scan order — the query has no `ORDER BY`. -/
def prereqNodes (G : Graph) (t : Node) : List Node :=
  G.edges.filterMap (fun ed =>
    if ed.dst == t.id && ed.relType == "PREREQUISITE_FOR" then
      G.nodes.find? (fun m => m.id == ed.src)
    else none)

/-- `get_prerequisites`: resolve by substring (first match), collect incoming
`PREREQUISITE_FOR` neighbours; structural empty envelope when unresolved. -/
def getPrerequisites (G : Graph) (q : String) : PrereqEnvelope :=
  match (nameMatches G q).head? with
  | none => { node := none, prerequisites := [], prerequisite_count := 0 }
  | some t =>
    { node := some (nodeOut t)
      prerequisites := (prereqNodes G t).map nodeOut
      prerequisite_count := ((prereqNodes G t).map nodeOut).length }

/-- Result envelope of `get_dependents`. -/
structure DependEnvelope where
  node : Option OutRec
  dependents : List OutRec
  dependent_count : Nat
deriving DecidableEq

/-- The nodes collected by `OPTIONAL MATCH (n)-[:PREREQUISITE_FOR]->(dependent)`. -/
def dependentNodes (G : Graph) (t : Node) : List Node :=
  G.edges.filterMap (fun ed =>
    if ed.src == t.id && ed.relType == "PREREQUISITE_FOR" then
      G.nodes.find? (fun m => m.id == ed.dst)
    else none)

/-- `get_dependents`, symmetric to `get_prerequisites`. -/
def getDependents (G : Graph) (q : String) : DependEnvelope :=
  match (nameMatches G q).head? with
  | none => { node := none, dependents := [], dependent_count := 0 }
  | some t =>
    { node := some (nodeOut t)
      dependents := (dependentNodes G t).map nodeOut
      dependent_count := ((dependentNodes G t).map nodeOut).length }

/-- Result envelope of `get_related_by_difficulty`. -/
structure SimilarEnvelope where
  node : Option OutRec
  difficulty_level : Option String
  similar_nodes : List OutRec
  similar_count : Nat
deriving DecidableEq

/-- `MATCH (similar) WHERE similar.difficulty = target AND similar <> n`:
exact difficulty equality (a null difficulty never equals the target) and
node-identity inequality. -/
def similarNodes (G : Graph) (n : Node) : List Node :=
  G.nodes.filter (fun m => m.difficulty == n.difficulty && !(m.id == n.id))

/-- `get_related_by_difficulty`: the second `MATCH (similar)` is not
OPTIONAL and the `RETURN` aggregates grouped by `n`, so a name-matched
candidate with no equal-difficulty peer produces no row at all.
`results[0]` is therefore the first candidate (in scan order) that has at
least one peer; when no candidate has a peer — in particular when none
resolves — the code falls through to the empty structural envelope. -/
def getRelatedByDifficulty (G : Graph) (q : String) : SimilarEnvelope :=
  match ((difficultyMatches G q).filter
      (fun n => !(similarNodes G n).isEmpty)).head? with
  | none => { node := none, difficulty_level := none
              similar_nodes := [], similar_count := 0 }
  | some n =>
    { node := some (nodeOut n), difficulty_level := n.difficulty
      similar_nodes := (similarNodes G n).map nodeOut
      similar_count := ((similarNodes G n).map nodeOut).length }

/-- Order used by `ORDER BY l.order`. -/
def orderLe (a b : Node) : Prop := a.order.getD 0 ≤ b.order.getD 0

instance : DecidableRel orderLe := fun a b =>
  inferInstanceAs (Decidable (a.order.getD 0 ≤ b.order.getD 0))

instance : IsTotal Node orderLe := ⟨fun a b => le_total (a.order.getD 0) (b.order.getD 0)⟩

instance : IsTrans Node orderLe := ⟨fun _ _ _ h h' => le_trans h h'⟩

/-- `get_all_levels`: every `Level` node, ordered by its `order` property,
with the hardcoded `labels = ["Level"]`. -/
def getAllLevels (G : Graph) : List OutRec :=
  ((G.nodes.filter (fun n => n.labels.contains "Level")).insertionSort
      orderLe).map levelOut

/-- Directed `PREREQUISITE_FOR` successors of a node id, in edge scan order. -/
def succs (G : Graph) (a : Nat) : List Nat :=
  (G.edges.filter (fun ed => ed.src == a && ed.relType == "PREREQUISITE_FOR")).map
    (fun ed => ed.dst)

/-- Reversed walks of exactly `k` `PREREQUISITE_FOR` hops from `s`: each walk
is stored head-last, so its head is the walk's current endpoint. -/
def rwalks (G : Graph) (s : Nat) : Nat → List (List Nat)
  | 0 => [[s]]
  | k + 1 =>
    (rwalks G s k).flatMap (fun w => (succs G (w.headD s)).map (fun m => m :: w))

/-- Search walk lengths `k, k+1, ...` (at most `fuel` of them) for the first
length at which some walk from `s` ends at `e`; return that walk in start-to-end
order.  This realises `shortestPath((s)-[:PREREQUISITE_FOR*1..max]->(e))`:
the shortest hop count wins, ties broken by enumeration order. -/
def shortestWalkAux (G : Graph) (s e : Nat) : Nat → Nat → Option (List Nat)
  | 0, _ => none
  | fuel + 1, k =>
    match (rwalks G s k).find? (fun w => w.headD s == e) with
    | some w => some w.reverse
    | none => shortestWalkAux G s e fuel (k + 1)

/-- Shortest `PREREQUISITE_FOR` walk from `s` to `e` of length `1..d`. -/
def shortestWalk (G : Graph) (s e : Nat) (d : Nat) : Option (List Nat) :=
  shortestWalkAux G s e d 1

/-- Result envelope of `get_learning_path`. -/
structure PathResult where
  path : List OutRec
  path_length : Nat
  start_node : Option OutRec
  end_node : Option OutRec
  message : String
deriving DecidableEq

/-- The row order of `MATCH (start), (end)`: all (start, end) pairs of
matching nodes, start varying outermost. -/
def matchPairs (sm em : List Node) : List (Node × Node) :=
  sm.flatMap (fun a => em.map (fun b => (a, b)))

/-- The nodes-not-found envelope (`check_results` empty). -/
def pathNotFound : PathResult :=
  ⟨[], 0, none, none, "One or both nodes not found"⟩

/-- The bounded shortest-path query over all (start, end) row pairs: the
first row whose pair admits a `PREREQUISITE_FOR` path within the bound
supplies the walk. -/
def pathSearch (G : Graph) (s e : String) (d : Nat) : Option (List Nat) :=
  (matchPairs (nameMatches G s) (nameMatches G e)).findSome?
    (fun p => shortestWalk G p.1.id p.2.id d)

/-- Convert the ids of a found walk back to node dicts, each with its stored
labels added. -/
def pathRecords (G : Graph) (w : List Nat) : List OutRec :=
  (w.filterMap (fun i => G.nodes.find? (fun n => n.id == i))).map nodeOut

/-- Phase 2 of `get_learning_path`: package the search outcome.  On success
the path nodes carry their stored labels, while `start_node`/`end_node` are
bare `dict(...)` property maps (no labels key added); when no path is found
within the bound the resolved endpoints are still returned. -/
def glpPhase2 (G : Graph) (s0 e0 : Node) (w : Option (List Nat)) : PathResult :=
  match w with
  | some w =>
    ⟨pathRecords G w, w.length - 1, some (rawOut s0), some (rawOut e0),
      "Path found successfully"⟩
  | none =>
    ⟨[], 0, some (rawOut s0), some (rawOut e0),
      "No path found within depth limit"⟩

/-- `get_learning_path`.  Phase 1 resolves both endpoints by substring match
(`check_query`); if either resolution list is empty the cartesian check
result is empty and the nodes-not-found envelope is returned with no path
search.  Otherwise phase 2 runs on the first row's resolved endpoints. -/
def getLearningPath (G : Graph) (s e : String) (maxDepth : Nat) : PathResult :=
  match (nameMatches G s).head?, (nameMatches G e).head? with
  | some s0, some e0 => glpPhase2 G s0 e0 (pathSearch G s e maxDepth)
  | _, _ => pathNotFound

/-- The HTTP layer's validation of `max_depth` (`graph_api.py`:
`Query(8, ge=1, le=15)`): out-of-range requests are rejected with a
validation error before the retriever runs. -/
def apiGetLearningPath (G : Graph) (s e : String) (maxDepth : Nat) :
    Except String PathResult :=
  if maxDepth < 1 || 15 < maxDepth then
    Except.error "validation error: max_depth out of range"
  else
    Except.ok (getLearningPath G s e maxDepth)

/-- Undirected adjacency over any relationship type. -/
def adjacent (G : Graph) (a b : Node) : Bool :=
  G.edges.any (fun ed =>
    (ed.src == a.id && ed.dst == b.id) || (ed.src == b.id && ed.dst == a.id))

/-- Neighbours of a node along any relationship type, either direction. -/
def neighbors (G : Graph) (a : Node) : List Node :=
  G.nodes.filter (adjacent G a)

/-- Breadth-first expansion: `k` more rounds, nodes already counted, current
frontier.  Each round adds the deduplicated not-yet-visited neighbours of the
frontier. -/
def bfsAux (G : Graph) : Nat → List Node → List Node → List Node
  | 0, visited, _ => visited
  | k + 1, visited, frontier =>
    let next := ((frontier.flatMap (neighbors G)).filter
        (fun x => decide (x ∉ visited))).dedup
    bfsAux G k (visited ++ next) next

/-- Result of the context traversal. -/
structure ContextResult where
  node : Option Node
  connected_nodes : List Node
  relationship_types : List String
deriving DecidableEq

/-- Modelled from the spec: the repository has no `get_context` /
`get_node_with_relations` implementation under `src/`; §4.5 of the spec
describes it.  Resolve the anchor by case-insensitive substring match (first
match authoritative), expand outward along any relationship type up to
`depth` hops, return the deduplicated set of reached nodes excluding the
anchor and the deduplicated relationship types observed. -/
def getContext (G : Graph) (q : String) (depth : Nat) : ContextResult :=
  match (nameMatches G q).head? with
  | none => { node := none, connected_nodes := [], relationship_types := [] }
  | some a =>
    let vs := bfsAux G depth [a] [a]
    let ids := vs.map (fun n => n.id)
    { node := some a
      connected_nodes := vs.filter (fun x => decide (x ≠ a))
      relationship_types :=
        ((G.edges.filter (fun ed => ids.contains ed.src && ids.contains ed.dst)).map
          (fun ed => ed.relType)).dedup }

/-- A directed `PREREQUISITE_FOR` edge between two node ids exists in the
store. -/
def edgeP (G : Graph) (a b : Nat) : Prop :=
  ∃ ed ∈ G.edges, ed.src = a ∧ ed.dst = b ∧ ed.relType = "PREREQUISITE_FOR"

instance (G : Graph) (a b : Nat) : Decidable (edgeP G a b) :=
  inferInstanceAs (Decidable (∃ ed ∈ G.edges, _ ∧ _ ∧ _))

/-- A directed `PREREQUISITE_FOR` walk of exactly `k ≥ 1` hops from `a`
to `b`. -/
inductive PWalk (G : Graph) : Nat → Nat → Nat → Prop
  | single {a b : Nat} : edgeP G a b → PWalk G a b 1
  | snoc {a x b k : Nat} : PWalk G a x k → edgeP G x b → PWalk G a b (k + 1)

/-- Node `x` lies within `k` undirected hops of `a` (any relationship type). -/
inductive ReachWithin (G : Graph) (a : Node) : Node → Nat → Prop
  | refl (k : Nat) : ReachWithin G a a k
  | step {x y : Node} {k : Nat} :
      ReachWithin G a x k → adjacent G x y = true → ReachWithin G a y (k + 1)

theorem ReachWithin.mono {G : Graph} {a x : Node} {k m : Nat}
    (h : ReachWithin G a x k) (hkm : k ≤ m) : ReachWithin G a x m := by
  induction h generalizing m with
  | refl _ => exact ReachWithin.refl m
  | @step x y k hr hadj ih =>
    rcases Nat.exists_eq_add_of_le hkm with ⟨c, rfl⟩
    have : ReachWithin G a x (k + c) := ih (Nat.le_add_right k c)
    have h2 := ReachWithin.step this hadj
    have : k + 1 + c = k + c + 1 := by omega
    rw [this]
    exact h2

/-! ## Shared lemmas -/

theorem mem_of_headq {α : Type} {l : List α} {a : α} (h : l.head? = some a) :
    a ∈ l := by
  cases l with
  | nil => simp at h
  | cons x t =>
    simp only [List.head?_cons, Option.some.injEq] at h
    simp [← h]

theorem mem_succs {G : Graph} {a m : Nat} : m ∈ succs G a ↔ edgeP G a m := by
  unfold succs edgeP
  constructor
  · intro h
    rcases List.mem_map.mp h with ⟨ed, hed, rfl⟩
    rcases List.mem_filter.mp hed with ⟨hmem, hp⟩
    simp only [Bool.and_eq_true, beq_iff_eq] at hp
    exact ⟨ed, hmem, hp.1, rfl, hp.2⟩
  · rintro ⟨ed, hmem, h1, h2, h3⟩
    refine List.mem_map.mpr ⟨ed, List.mem_filter.mpr ⟨hmem, ?_⟩, h2⟩
    simp only [Bool.and_eq_true, beq_iff_eq]
    exact ⟨h1, h3⟩

theorem rwalks_sound (G : Graph) (s : Nat) :
    ∀ (k : Nat) (w : List Nat), w ∈ rwalks G s k → 1 ≤ k →
      PWalk G s (w.headD s) k := by
  intro k
  induction k with
  | zero => intro w _ h1; omega
  | succ k ih =>
    intro w hw _
    unfold rwalks at hw
    rcases List.mem_flatMap.mp hw with ⟨w0, hw0, hmem⟩
    rcases List.mem_map.mp hmem with ⟨m, hm, rfl⟩
    have hedge : edgeP G (w0.headD s) m := mem_succs.mp hm
    cases k with
    | zero =>
      have : w0 = [s] := by simpa [rwalks] using hw0
      subst this
      simpa using PWalk.single hedge
    | succ j =>
      have hp := ih w0 hw0 (Nat.succ_le_succ (Nat.zero_le j))
      simpa using PWalk.snoc hp hedge

theorem rwalks_complete {G : Graph} {s b k : Nat} (h : PWalk G s b k) :
    ∃ w ∈ rwalks G s k, w.headD s = b := by
  induction h with
  | @single b hedge =>
    refine ⟨[b, s], ?_, rfl⟩
    unfold rwalks
    refine List.mem_flatMap.mpr ⟨[s], by simp [rwalks], ?_⟩
    exact List.mem_map.mpr ⟨b, by simpa using mem_succs.mpr hedge, rfl⟩
  | @snoc x b k _ hedge ih =>
    rcases ih with ⟨w, hw, hhead⟩
    refine ⟨b :: w, ?_, rfl⟩
    unfold rwalks
    refine List.mem_flatMap.mpr ⟨w, hw, ?_⟩
    exact List.mem_map.mpr ⟨b, by rw [hhead]; exact mem_succs.mpr hedge, rfl⟩

theorem shortestWalkAux_sound (G : Graph) (s e : Nat) :
    ∀ (fuel k : Nat) (w : List Nat), shortestWalkAux G s e fuel k = some w →
      ∃ j, k ≤ j ∧ j < k + fuel ∧ ∃ w0 ∈ rwalks G s j, w0.headD s = e := by
  intro fuel
  induction fuel with
  | zero => intro k w h; simp [shortestWalkAux] at h
  | succ fuel ih =>
    intro k w h
    unfold shortestWalkAux at h
    cases hfind : (rwalks G s k).find? (fun w => w.headD s == e) with
    | some w0 =>
      refine ⟨k, le_refl k, by omega, w0, List.mem_of_find?_eq_some hfind, ?_⟩
      have hp := List.find?_some hfind
      exact beq_iff_eq.mp hp
    | none =>
      rw [hfind] at h
      rcases ih (k + 1) w h with ⟨j, hj1, hj2, hex⟩
      exact ⟨j, by omega, by omega, hex⟩

theorem shortestWalkAux_found (G : Graph) (s e : Nat) :
    ∀ (fuel k j : Nat), k ≤ j → j < k + fuel →
      (∃ w ∈ rwalks G s j, w.headD s = e) →
      shortestWalkAux G s e fuel k ≠ none := by
  intro fuel
  induction fuel with
  | zero => intro k j h1 h2 _; omega
  | succ fuel ih =>
    intro k j h1 h2 hex
    unfold shortestWalkAux
    cases hfind : (rwalks G s k).find? (fun w => w.headD s == e) with
    | some w0 => simp
    | none =>
      rcases Nat.lt_or_ge k j with hkj | hkj
      · exact ih (k + 1) j hkj (by omega) hex
      · exfalso
        have hkj2 : j = k := le_antisymm (by omega) h1
        subst hkj2
        rcases hex with ⟨w, hw, hhead⟩
        have := List.find?_eq_none.mp hfind w hw
        exact this (beq_iff_eq.mpr hhead)

theorem shortestWalk_some_pwalk {G : Graph} {s e d : Nat} {w : List Nat}
    (h : shortestWalk G s e d = some w) : ∃ j, 1 ≤ j ∧ j ≤ d ∧ PWalk G s e j := by
  rcases shortestWalkAux_sound G s e d 1 w h with ⟨j, hj1, hj2, w0, hw0, hhead⟩
  exact ⟨j, hj1, by omega, hhead ▸ rwalks_sound G s j w0 hw0 hj1⟩

theorem pwalk_shortestWalk_ne_none {G : Graph} {s e d j : Nat}
    (h : PWalk G s e j) (h1 : 1 ≤ j) (h2 : j ≤ d) :
    shortestWalk G s e d ≠ none := by
  rcases rwalks_complete h with ⟨w, hw, hhead⟩
  exact shortestWalkAux_found G s e d 1 j h1 (by omega) ⟨w, hw, hhead⟩

theorem mem_matchPairs {sm em : List Node} {p : Node × Node} :
    p ∈ matchPairs sm em ↔ p.1 ∈ sm ∧ p.2 ∈ em := by
  unfold matchPairs
  constructor
  · intro h
    rcases List.mem_flatMap.mp h with ⟨a, ha, hmem⟩
    rcases List.mem_map.mp hmem with ⟨b, hb, rfl⟩
    exact ⟨ha, hb⟩
  · rintro ⟨h1, h2⟩
    exact List.mem_flatMap.mpr ⟨p.1, h1, List.mem_map.mpr ⟨p.2, h2, rfl⟩⟩

theorem bfsAux_reach (G : Graph) (a : Node) :
    ∀ (k m : Nat) (visited frontier : List Node),
      (∀ x ∈ visited, ReachWithin G a x m) →
      (∀ x ∈ frontier, ReachWithin G a x m) →
      ∀ x ∈ bfsAux G k visited frontier, ReachWithin G a x (m + k) := by
  intro k
  induction k with
  | zero =>
    intro m visited frontier hv _ x hx
    simpa using hv x (by simpa [bfsAux] using hx)
  | succ k ih =>
    intro m visited frontier hv hf x hx
    unfold bfsAux at hx
    have hnext : ∀ y ∈ ((frontier.flatMap (neighbors G)).filter
        (fun x => decide (x ∉ visited))).dedup, ReachWithin G a y (m + 1) := by
      intro y hy
      rcases List.mem_flatMap.mp (List.mem_filter.mp (List.mem_dedup.mp hy)).1
        with ⟨f, hfmem, hyn⟩
      have hadj : adjacent G f y = true := (List.mem_filter.mp hyn).2
      exact ReachWithin.step (hf f hfmem) hadj
    have := ih (m + 1)
      (visited ++ ((frontier.flatMap (neighbors G)).filter
        (fun x => decide (x ∉ visited))).dedup)
      (((frontier.flatMap (neighbors G)).filter
        (fun x => decide (x ∉ visited))).dedup)
      (by
        intro y hy
        rcases List.mem_append.mp hy with hy1 | hy2
        · exact (hv y hy1).mono (Nat.le_succ m)
        · exact hnext y hy2)
      hnext x hx
    have harith : m + 1 + k = m + (k + 1) := by omega
    exact harith ▸ this

theorem bfsAux_nodup (G : Graph) :
    ∀ (k : Nat) (visited frontier : List Node), visited.Nodup →
      (bfsAux G k visited frontier).Nodup := by
  intro k
  induction k with
  | zero => intro visited frontier hv; simpa [bfsAux] using hv
  | succ k ih =>
    intro visited frontier hv
    unfold bfsAux
    refine ih _ _ (List.Nodup.append hv (List.nodup_dedup _) ?_)
    intro y hy1 hy2
    have := (List.mem_filter.mp (List.mem_dedup.mp hy2)).2
    exact (of_decide_eq_true this) hy1

theorem glp_eq_not_found {G : Graph} {s e : String} {d : Nat}
    (h : (nameMatches G s).head? = none ∨ (nameMatches G e).head? = none) :
    getLearningPath G s e d = pathNotFound := by
  unfold getLearningPath
  rcases h with h | h
  · rcases (nameMatches G e).head? with _ | e0 <;> rw [h]
  · rcases (nameMatches G s).head? with _ | s0 <;> rw [h]

theorem glp_eq_phase2 {G : Graph} {s e : String} {d : Nat} {s0 e0 : Node}
    (hs : (nameMatches G s).head? = some s0)
    (he : (nameMatches G e).head? = some e0) :
    getLearningPath G s e d = glpPhase2 G s0 e0 (pathSearch G s e d) := by
  unfold getLearningPath
  rw [hs, he]

theorem prereqNodes_subset {G : Graph} {t : Node} :
    ∀ x ∈ prereqNodes G t, x ∈ G.nodes := by
  intro x hx
  unfold prereqNodes at hx
  rcases List.mem_filterMap.mp hx with ⟨ed, _, hsome⟩
  split at hsome
  · exact List.mem_of_find?_eq_some hsome
  · simp at hsome

theorem dependentNodes_subset {G : Graph} {t : Node} :
    ∀ x ∈ dependentNodes G t, x ∈ G.nodes := by
  intro x hx
  unfold dependentNodes at hx
  rcases List.mem_filterMap.mp hx with ⟨ed, _, hsome⟩
  split at hsome
  · exact List.mem_of_find?_eq_some hsome
  · simp at hsome

theorem similarNodes_subset {G : Graph} {n : Node} :
    ∀ x ∈ similarNodes G n, x ∈ G.nodes := by
  intro x hx
  exact (List.mem_filter.mp hx).1

theorem mem_search_nodes {G : Graph} {nq : Option String} {lq : Option NodeLabel}
    {dq : Option String} {lim : Nat} {r : OutRec}
    (hr : r ∈ searchNodes G nq lq dq lim) :
    ∃ m, m ∈ G.nodes.filter (matchesSearch nq lq dq) ∧ r = nodeOut m := by
  unfold searchNodes at hr
  rcases List.mem_map.mp hr with ⟨m, hm, rfl⟩
  have hm2 : m ∈ (G.nodes.filter (matchesSearch nq lq dq)).insertionSort nameLe :=
    List.mem_of_mem_take hm
  exact ⟨m, (List.perm_insertionSort nameLe _).mem_iff.mp hm2, rfl⟩

/-! ## Test fixtures -/

/-- A tiny graph with one `Topic` node; no name contains `"zzz"`. -/
def gOneTopic : Graph :=
  ⟨[⟨0, "Graphs", ["Topic"], some "medium", none⟩], []⟩

/-- Two nodes that share name `"Dup"` and difficulty `"easy"`, plus one node
of a different difficulty. -/
def gDup : Graph :=
  ⟨[⟨0, "Dup", ["Subtopic"], some "easy", none⟩,
    ⟨1, "Dup", ["Subtopic"], some "easy", none⟩,
    ⟨2, "Other", ["Subtopic"], some "hard", none⟩], []⟩

/-- Fixture for the grouped-row elimination of `get_related_by_difficulty`:
the first name match for `"D"` (`"Dx"`) has no equal-difficulty peer, the
second (`"Dy"`) has one (`"Ez"`). -/
def gSkip : Graph :=
  ⟨[⟨0, "Dx", ["Subtopic"], some "rare", none⟩,
    ⟨1, "Dy", ["Subtopic"], some "easy", none⟩,
    ⟨2, "Ez", ["Subtopic"], some "easy", none⟩], []⟩

/-- Nodes for the search fixture: three labelled nodes with distinct names. -/
def gSearch : Graph :=
  ⟨[⟨0, "Stacks", ["Topic"], some "easy", none⟩,
    ⟨1, "Arrays", ["Topic"], some "easy", none⟩,
    ⟨2, "Queues", ["Subtopic"], some "easy", none⟩], []⟩

/-- One node whose name properly contains the string `"tree"`. -/
def gTrees : Graph :=
  ⟨[⟨0, "Binary Trees", ["Topic"], some "medium", none⟩], []⟩

/-! ## C9 -/

/-- C9: for every input name and every graph, the `prerequisite_count` of
`get_prerequisites` equals the length of its `prerequisites` collection and
the `dependent_count` of `get_dependents` equals the length of its
`dependents` collection, in both the found and not-found outcomes. -/
theorem count_matches_collection (G : Graph) (q : String) :
    (getPrerequisites G q).prerequisite_count =
      (getPrerequisites G q).prerequisites.length ∧
    (getDependents G q).dependent_count =
      (getDependents G q).dependents.length := by
  constructor
  · unfold getPrerequisites
    cases (nameMatches G q).head? <;> simp
  · unfold getDependents
    cases (nameMatches G q).head? <;> simp

/-! ## C10 -/

/-- C10: `get_node_details` matches by case-insensitive full-name equality
(not substring containment), returns at most one record (an `Option`), and is
absent exactly when no node's lowercased name equals the lowercased input. -/
theorem node_details_exact_match (G : Graph) (q : String) :
    (getNodeDetails G q = none ↔
      ∀ n ∈ G.nodes, ¬ lowerStr n.name = lowerStr q) ∧
    (∀ r, getNodeDetails G q = some r →
      ∃ n ∈ G.nodes, lowerStr n.name = lowerStr q ∧ r = nodeOut n) := by
  constructor
  · unfold getNodeDetails
    rw [Option.map_eq_none', List.find?_eq_none]
    constructor
    · intro h n hn
      simpa [eqCI] using h n hn
    · intro h n hn
      simpa [eqCI] using h n hn
  · intro r h
    unfold getNodeDetails at h
    rcases Option.map_eq_some'.mp h with ⟨n, hfind, rfl⟩
    refine ⟨n, List.mem_of_find?_eq_some hfind, ?_, rfl⟩
    have hp := List.find?_some hfind
    simpa [eqCI] using hp

/-- Witness for C10 at a concrete graph: `"Binary Trees"` is found under a
differently-cased exact name, while the proper substring `"tree"` finds
nothing. -/
theorem node_details_exact_match_witness :
    (∃ n ∈ gTrees.nodes,
      lowerStr n.name = lowerStr "binary TREES" ∧
      nodeOut ⟨0, "Binary Trees", ["Topic"], some "medium", none⟩ = nodeOut n) ∧
    (∀ n ∈ gTrees.nodes, ¬ lowerStr n.name = lowerStr "tree") := by
  constructor
  · exact (node_details_exact_match gTrees "binary TREES").2
      (nodeOut ⟨0, "Binary Trees", ["Topic"], some "medium", none⟩) (by decide)
  · exact (node_details_exact_match gTrees "tree").1.mp (by decide)

/-! ## C8 -/

/-- C8: every `search` result sequence is ordered lexicographically by node
name, has length at most `limit`, and when a label filter is set every
returned record's label set contains that label. -/
theorem search_sorted_limited_labelled (G : Graph) (nq : Option String)
    (lq : Option NodeLabel) (dq : Option String) (lim : Nat) :
    (searchNodes G nq lq dq lim).Pairwise
      (fun r s => r.name.data ≤ s.name.data) ∧
    (searchNodes G nq lq dq lim).length ≤ lim ∧
    (∀ L, lq = some L → ∀ r ∈ searchNodes G nq lq dq lim,
      ∃ ls, r.labels = some ls ∧ L.value ∈ ls) := by
  refine ⟨?_, ?_, ?_⟩
  · unfold searchNodes
    rw [List.pairwise_map]
    exact List.Pairwise.sublist (List.take_sublist _ _)
      (List.sorted_insertionSort nameLe _)
  · unfold searchNodes
    rw [List.length_map]
    exact List.length_take_le lim _
  · intro L hL r hr
    rcases mem_search_nodes hr with ⟨m, hm, rfl⟩
    have hmatch := (List.mem_filter.mp hm).2
    subst hL
    unfold matchesSearch at hmatch
    simp only [Bool.and_eq_true] at hmatch
    refine ⟨m.labels, rfl, ?_⟩
    simpa using hmatch.1.1

/-- Witness for C8: searching `gSearch` with the `Topic` label filter. -/
theorem search_sorted_limited_labelled_witness :
    (searchNodes gSearch none (some NodeLabel.topic) none 10).Pairwise
      (fun r s => r.name.data ≤ s.name.data) ∧
    ∀ r ∈ searchNodes gSearch none (some NodeLabel.topic) none 10,
      ∃ ls, r.labels = some ls ∧ NodeLabel.topic.value ∈ ls := by
  have h := search_sorted_limited_labelled gSearch none (some NodeLabel.topic) none 10
  exact ⟨h.1, h.2.2 NodeLabel.topic rfl⟩

/-! ## C7 -/

/-- C7: when `similar_by_difficulty` resolves a source node (the first
name-matched candidate whose equal-difficulty peer set is non-empty — the
grouped query drops peerless candidates), the similar collection consists
exactly of the other stored nodes with equal difficulty, the source being
excluded by node identity (id), never by name. -/
theorem similar_excludes_source (G : Graph) (q : String) (n : Node)
    (h : ((difficultyMatches G q).filter
      (fun m => !(similarNodes G m).isEmpty)).head? = some n) :
    (getRelatedByDifficulty G q).similar_nodes = (similarNodes G n).map nodeOut ∧
    (∀ m, m ∈ similarNodes G n ↔
      m ∈ G.nodes ∧ m.difficulty = n.difficulty ∧ m.id ≠ n.id) ∧
    n ∉ similarNodes G n := by
  have hmem : ∀ m, m ∈ similarNodes G n ↔
      m ∈ G.nodes ∧ m.difficulty = n.difficulty ∧ m.id ≠ n.id := by
    intro m
    unfold similarNodes
    rw [List.mem_filter]
    simp [Bool.and_eq_true]
  refine ⟨?_, hmem, ?_⟩
  · unfold getRelatedByDifficulty
    rw [h]
  · intro hn
    exact ((hmem n).mp hn).2.2 rfl

/-- Witness for C7: the source `"Dup"` (id 0) is excluded from its own
similar set even though a distinct node with the same name and difficulty
(id 1) exists and is included; on `gSkip` the peerless first candidate
`"Dx"` is skipped and the resolved source is `"Dy"`. -/
theorem similar_excludes_source_witness :
    ((⟨0, "Dup", ["Subtopic"], some "easy", none⟩ : Node) ∉
      similarNodes gDup ⟨0, "Dup", ["Subtopic"], some "easy", none⟩) ∧
    ((⟨1, "Dup", ["Subtopic"], some "easy", none⟩ : Node) ∈
      similarNodes gDup ⟨0, "Dup", ["Subtopic"], some "easy", none⟩) ∧
    (getRelatedByDifficulty gSkip "D").similar_nodes =
      (similarNodes gSkip ⟨1, "Dy", ["Subtopic"], some "easy", none⟩).map nodeOut ∧
    (getRelatedByDifficulty gSkip "D").node =
      some (nodeOut ⟨1, "Dy", ["Subtopic"], some "easy", none⟩) := by
  have h := similar_excludes_source gDup "Dup"
    ⟨0, "Dup", ["Subtopic"], some "easy", none⟩ (by decide)
  have hskip := similar_excludes_source gSkip "D"
    ⟨1, "Dy", ["Subtopic"], some "easy", none⟩ (by decide)
  refine ⟨h.2.2, ?_, hskip.1, by decide⟩
  exact (h.2.1 ⟨1, "Dup", ["Subtopic"], some "easy", none⟩).mpr
    ⟨by decide, rfl, by decide⟩

/-! ## C6 -/

/-- C6 counterexample: the claim says a "no matching node" condition always
yields the full envelope; but `get_topic_with_subtopics` returns no envelope
at all (`None`) when no topic matches, even on a non-empty graph. -/
theorem topic_envelope_absent_cex :
    getTopicWithSubtopics gOneTopic "zzz" = none ∧ gOneTopic.nodes ≠ [] := by
  constructor
  · decide
  · decide

/-- C6 (amended): `get_prerequisites`, `get_dependents` and
`similar_by_difficulty` return their full envelope with a `none` node field,
empty collections and zero counts exactly when resolution fails, whereas
`get_topic_with_subtopics` returns an absent result (no envelope) in that
case. -/
theorem empty_envelope_shape (G : Graph) (q : String) :
    ((getPrerequisites G q).node = none ↔ (nameMatches G q).head? = none) ∧
    ((nameMatches G q).head? = none →
      getPrerequisites G q = ⟨none, [], 0⟩ ∧ getDependents G q = ⟨none, [], 0⟩) ∧
    ((difficultyMatches G q).head? = none →
      getRelatedByDifficulty G q = ⟨none, none, [], 0⟩) ∧
    ((topicMatches G q).head? = none → getTopicWithSubtopics G q = none) := by
  refine ⟨?_, ?_, ?_, ?_⟩
  · unfold getPrerequisites
    cases (nameMatches G q).head? <;> simp
  · intro h
    constructor
    · unfold getPrerequisites
      rw [h]
    · unfold getDependents
      rw [h]
  · intro h
    unfold getRelatedByDifficulty
    rw [List.head?_eq_none_iff.mp h]
    rfl
  · intro h
    unfold getTopicWithSubtopics
    rw [h]

/-- Witness for C6 at `gOneTopic` with the unmatched query `"zzz"`. -/
theorem empty_envelope_shape_witness :
    getPrerequisites gOneTopic "zzz" = ⟨none, [], 0⟩ ∧
    getDependents gOneTopic "zzz" = ⟨none, [], 0⟩ ∧
    getRelatedByDifficulty gOneTopic "zzz" = ⟨none, none, [], 0⟩ := by
  have h := empty_envelope_shape gOneTopic "zzz"
  exact ⟨(h.2.1 (by decide)).1, (h.2.1 (by decide)).2, h.2.2.1 (by decide)⟩

theorem pathRecords_from_nodes {G : Graph} {w : List Nat} :
    ∀ r ∈ pathRecords G w, ∃ m ∈ G.nodes, r = nodeOut m := by
  intro r hr
  unfold pathRecords at hr
  rcases List.mem_map.mp hr with ⟨m, hm, rfl⟩
  rcases List.mem_filterMap.mp hm with ⟨i, _, hfind⟩
  exact ⟨m, List.mem_of_find?_eq_some hfind, rfl⟩

/-! ## C3 -/

/-- A two-node `PREREQUISITE_FOR` chain where the end node carries two
stored labels. -/
def gPath : Graph :=
  ⟨[⟨0, "Alpha", ["Topic"], none, none⟩,
    ⟨1, "Beta", ["Topic", "Level"], none, none⟩],
   [⟨0, 1, "PREREQUISITE_FOR", none⟩]⟩

/-- C3 counterexample: on a successful `get_learning_path` call the resolved
`start_node` and `end_node` records carry no `labels` field at all
(`labels = none`), and `get_topic_with_subtopics` hardcodes
`labels = ["Topic"]` even though the stored label set of the matched topic is
`["Topic", "Level"]` — both contradict "every node record carries a labels
field equal to the node's stored label set". -/
theorem labels_field_cex :
    (getLearningPath gPath "Alpha" "Beta" 5).message = "Path found successfully" ∧
    (getLearningPath gPath "Alpha" "Beta" 5).start_node =
      some ⟨"Alpha", none, none, none⟩ ∧
    (getLearningPath gPath "Alpha" "Beta" 5).end_node =
      some ⟨"Beta", none, none, none⟩ ∧
    getTopicWithSubtopics gPath "Beta" =
      some ⟨⟨"Beta", none, none, some ["Topic"]⟩, [], 0⟩ ∧
    (⟨1, "Beta", ["Topic", "Level"], none, none⟩ : Node) ∈ gPath.nodes := by
  refine ⟨by decide, by decide, by decide, by decide, by decide⟩

/-- C3 (amended): every node record in search results, prerequisite and
dependent collections, path node sequences and similar-difficulty results is
a stored node's property dict with `labels` equal to its stored label set;
topic, subtopic and level records instead carry the hardcoded singleton of
the matched label; and the resolved `start_node`/`end_node` of
`get_learning_path` carry no labels field at all. -/
theorem labels_field_shape (G : Graph) (nq : Option String)
    (lq : Option NodeLabel) (dq : Option String) (lim : Nat)
    (q s e : String) (d : Nat) :
    (∀ r ∈ searchNodes G nq lq dq lim, ∃ m ∈ G.nodes, r = nodeOut m) ∧
    (∀ env, getTopicWithSubtopics G q = some env →
      env.topic.labels = some ["Topic"] ∧
      ∀ r ∈ env.subtopics, r.labels = some ["Subtopic"]) ∧
    (∀ r ∈ (getPrerequisites G q).prerequisites, ∃ m ∈ G.nodes, r = nodeOut m) ∧
    (∀ r ∈ (getDependents G q).dependents, ∃ m ∈ G.nodes, r = nodeOut m) ∧
    (∀ r ∈ (getLearningPath G s e d).path, ∃ m ∈ G.nodes, r = nodeOut m) ∧
    (∀ r, (getLearningPath G s e d).start_node = some r → r.labels = none) ∧
    (∀ r, (getLearningPath G s e d).end_node = some r → r.labels = none) ∧
    (∀ r ∈ (getRelatedByDifficulty G q).similar_nodes,
      ∃ m ∈ G.nodes, r = nodeOut m) ∧
    (∀ r ∈ getAllLevels G, r.labels = some ["Level"]) := by
  refine ⟨?_, ?_, ?_, ?_, ?_, ?_, ?_, ?_, ?_⟩
  · intro r hr
    rcases mem_search_nodes hr with ⟨m, hm, rfl⟩
    exact ⟨m, (List.mem_filter.mp hm).1, rfl⟩
  · intro env henv
    unfold getTopicWithSubtopics at henv
    rcases ht : (topicMatches G q).head? with _ | t
    · rw [ht] at henv
      simp at henv
    · rw [ht] at henv
      simp only [Option.some.injEq] at henv
      subst henv
      refine ⟨rfl, ?_⟩
      intro r hr
      rcases List.mem_map.mp hr with ⟨m, _, rfl⟩
      rfl
  · intro r hr
    unfold getPrerequisites at hr
    rcases ht : (nameMatches G q).head? with _ | t
    · rw [ht] at hr
      simp at hr
    · rw [ht] at hr
      rcases List.mem_map.mp hr with ⟨m, hm, rfl⟩
      exact ⟨m, prereqNodes_subset m hm, rfl⟩
  · intro r hr
    unfold getDependents at hr
    rcases ht : (nameMatches G q).head? with _ | t
    · rw [ht] at hr
      simp at hr
    · rw [ht] at hr
      rcases List.mem_map.mp hr with ⟨m, hm, rfl⟩
      exact ⟨m, dependentNodes_subset m hm, rfl⟩
  · intro r hr
    rcases hs : (nameMatches G s).head? with _ | s0
    · rw [glp_eq_not_found (Or.inl hs)] at hr
      simp [pathNotFound] at hr
    · rcases he : (nameMatches G e).head? with _ | e0
      · rw [glp_eq_not_found (Or.inr he)] at hr
        simp [pathNotFound] at hr
      · rw [glp_eq_phase2 hs he] at hr
        unfold glpPhase2 at hr
        rcases hw : pathSearch G s e d with _ | w <;> rw [hw] at hr
        · simp at hr
        · exact pathRecords_from_nodes r hr
  · intro r hr
    rcases hs : (nameMatches G s).head? with _ | s0
    · rw [glp_eq_not_found (Or.inl hs)] at hr
      simp [pathNotFound] at hr
    · rcases he : (nameMatches G e).head? with _ | e0
      · rw [glp_eq_not_found (Or.inr he)] at hr
        simp [pathNotFound] at hr
      · rw [glp_eq_phase2 hs he] at hr
        unfold glpPhase2 at hr
        rcases hw : pathSearch G s e d with _ | w <;> rw [hw] at hr <;>
          simp only [Option.some.injEq] at hr <;> rw [← hr] <;> rfl
  · intro r hr
    rcases hs : (nameMatches G s).head? with _ | s0
    · rw [glp_eq_not_found (Or.inl hs)] at hr
      simp [pathNotFound] at hr
    · rcases he : (nameMatches G e).head? with _ | e0
      · rw [glp_eq_not_found (Or.inr he)] at hr
        simp [pathNotFound] at hr
      · rw [glp_eq_phase2 hs he] at hr
        unfold glpPhase2 at hr
        rcases hw : pathSearch G s e d with _ | w <;> rw [hw] at hr <;>
          simp only [Option.some.injEq] at hr <;> rw [← hr] <;> rfl
  · intro r hr
    unfold getRelatedByDifficulty at hr
    rcases hd : ((difficultyMatches G q).filter
        (fun n => !(similarNodes G n).isEmpty)).head? with _ | n
    · rw [hd] at hr
      simp at hr
    · rw [hd] at hr
      rcases List.mem_map.mp hr with ⟨m, hm, rfl⟩
      exact ⟨m, similarNodes_subset m hm, rfl⟩
  · intro r hr
    unfold getAllLevels at hr
    rcases List.mem_map.mp hr with ⟨m, _, rfl⟩
    rfl

/-- Witness for C3 at `gPath`: the successful path call and the resolved
topic envelope, with each implication discharged at its concrete input. -/
theorem labels_field_shape_witness :
    (∀ r ∈ (getLearningPath gPath "Alpha" "Beta" 5).path,
      ∃ m ∈ gPath.nodes, r = nodeOut m) ∧
    (∀ r, (getLearningPath gPath "Alpha" "Beta" 5).start_node = some r →
      r.labels = none) ∧
    ((getTopicWithSubtopics gPath "Beta").map TopicEnvelope.topic =
      some ⟨"Beta", none, none, some ["Topic"]⟩ →
      ∀ env, getTopicWithSubtopics gPath "Beta" = some env →
        env.topic.labels = some ["Topic"]) := by
  have h := labels_field_shape gPath none none none 10 "Beta" "Alpha" "Beta" 5
  exact ⟨h.2.2.2.2.1, h.2.2.2.2.2.1, fun _ env henv => (h.2.1 env henv).1⟩

/-! ## C4 -/

/-- The weight on the first stored `PREREQUISITE_FOR` edge from `p` to `t`. -/
def prereqWeight (G : Graph) (t p : Node) : Option Nat :=
  (G.edges.find? (fun ed =>
    ed.src == p.id && ed.dst == t.id && ed.relType == "PREREQUISITE_FOR")).bind
    (fun ed => ed.weight)

/-- Modelled from the spec's ordering requirement for `get_prerequisites`
("ordered by edge weight descending when weight is present, else by name");
stated only to compare the requirement against the source behaviour. -/
def specPrereqOrdered (G : Graph) (t : Node) (ps : List Node) : Prop :=
  if ∀ p ∈ ps, (prereqWeight G t p).isSome = true then
    ps.Pairwise (fun p r => (prereqWeight G t r).getD 0 ≤ (prereqWeight G t p).getD 0)
  else
    ps.Pairwise (fun p r => p.name.data ≤ r.name.data)

/-- The resolved node of the C4/C5 weight fixture. -/
def gwTarget : Node := ⟨0, "Target", ["Topic"], none, none⟩

/-- Fixture: `"B"` (weight 0) and `"A"` (weight 1) are prerequisites of
`"Target"`, with the `B` edge stored first. -/
def gWeights : Graph :=
  ⟨[gwTarget,
    ⟨1, "B", ["Subtopic"], none, none⟩,
    ⟨2, "A", ["Subtopic"], none, none⟩],
   [⟨1, 0, "PREREQUISITE_FOR", some 0⟩,
    ⟨2, 0, "PREREQUISITE_FOR", some 1⟩]⟩

/-- C4 counterexample: the query of `get_prerequisites` has no `ORDER BY`, so
the collection comes back in edge scan order `["B", "A"]`, which is neither
weight-descending (weights 0 then 1) nor name-ascending — the spec's ordering
requirement fails on the code. -/
theorem prereq_order_cex :
    (getPrerequisites gWeights "Target").prerequisites.map OutRec.name = ["B", "A"] ∧
    ¬ specPrereqOrdered gWeights gwTarget (prereqNodes gWeights gwTarget) := by
  constructor
  · decide
  · unfold specPrereqOrdered
    rw [if_pos (by decide)]
    decide

/-- C4 (amended): the prerequisites collection of `get_prerequisites` holds
exactly the `PREREQUISITE_FOR` in-neighbours of the resolved node, in edge
match order; no ordering by weight or name is applied. -/
theorem prereq_membership (G : Graph) (q : String) (t : Node)
    (h : (nameMatches G q).head? = some t) :
    (getPrerequisites G q).prerequisites = (prereqNodes G t).map nodeOut ∧
    (∀ p ∈ prereqNodes G t, p ∈ G.nodes ∧ edgeP G p.id t.id) ∧
    ((G.nodes.map Node.id).Nodup →
      ∀ p ∈ G.nodes, edgeP G p.id t.id → p ∈ prereqNodes G t) := by
  refine ⟨?_, ?_, ?_⟩
  · unfold getPrerequisites
    rw [h]
  · intro p hp
    unfold prereqNodes at hp
    rcases List.mem_filterMap.mp hp with ⟨ed, hed, hsome⟩
    by_cases hcond : (ed.dst == t.id && ed.relType == "PREREQUISITE_FOR") = true
    · rw [if_pos hcond] at hsome
      have hmem := List.mem_of_find?_eq_some hsome
      have hpred := List.find?_some hsome
      simp only [Bool.and_eq_true, beq_iff_eq] at hcond hpred
      exact ⟨hmem, ed, hed, hpred.symm, hcond.1, hcond.2⟩
    · rw [if_neg hcond] at hsome
      simp at hsome
  · intro hnodup p hp hedge
    rcases hedge with ⟨ed, hed, hsrc, hdst, htype⟩
    unfold prereqNodes
    refine List.mem_filterMap.mpr ⟨ed, hed, ?_⟩
    have hcond : (ed.dst == t.id && ed.relType == "PREREQUISITE_FOR") = true := by
      simp only [Bool.and_eq_true, beq_iff_eq]
      exact ⟨hdst, htype⟩
    rw [if_pos hcond]
    cases hfind : G.nodes.find? (fun m => m.id == ed.src) with
    | none =>
      exfalso
      exact (List.find?_eq_none.mp hfind p hp) (beq_iff_eq.mpr hsrc.symm)
    | some m =>
      have hm := List.mem_of_find?_eq_some hfind
      have hmid0 := List.find?_some hfind
      have hmid : m.id = ed.src := beq_iff_eq.mp hmid0
      have hme : m = p :=
        List.inj_on_of_nodup_map hnodup hm hp (by rw [hmid, hsrc])
      rw [hme]

/-- Witness for C4 at the weight fixture: the output equals the edge-order
collection, and node `"A"` (which has an edge into the target) is a member. -/
theorem prereq_membership_witness :
    (getPrerequisites gWeights "Target").prerequisites =
      (prereqNodes gWeights gwTarget).map nodeOut ∧
    (⟨2, "A", ["Subtopic"], none, none⟩ : Node) ∈ prereqNodes gWeights gwTarget := by
  have h := prereq_membership gWeights "Target" gwTarget (by decide)
  exact ⟨h.1, h.2.2 (by decide) _ (by decide) (by decide)⟩

/-! ## C5 -/

/-- Distinct three-letter names for the chain fixture. -/
def chainNames : List String :=
  ["caa", "cab", "cac", "cad", "cae", "caf", "cag", "cah", "cai",
   "caj", "cak", "cal", "cam", "can", "cao", "cap", "caq"]

/-- A 17-node `PREREQUISITE_FOR` chain (16 hops end to end). -/
def chain17 : Graph :=
  ⟨(List.range 17).map (fun i => ⟨i, chainNames.getD i "x", ["Topic"], none, none⟩),
   (List.range 16).map (fun i => ⟨i, i + 1, "PREREQUISITE_FOR", none⟩)⟩

/-- C5 counterexample: the engine executes a request with `max_depth = 100`
(beyond any safe bound, and beyond the HTTP layer's `le=15`) instead of
rejecting it, and the outcome differs from the same request at depth 15 — so
no clamp to the bound happens inside the engine either. -/
theorem max_depth_unclamped_cex :
    (getLearningPath chain17 "caa" "caq" 100).message = "Path found successfully" ∧
    (getLearningPath chain17 "caa" "caq" 100).path_length = 16 ∧
    (getLearningPath chain17 "caa" "caq" 15).message =
      "No path found within depth limit" := by
  refine ⟨by decide, by decide, by decide⟩

/-- C5 (amended): the retriever itself never clamps or rejects `max_depth`;
the HTTP layer rejects values outside `1..15` before the engine runs and
passes in-range values through unmodified, while the engine honours whatever
bound it is given — any resolvable pair connected within the caller-supplied
`max_depth` yields a successful path result, with no cap at a safe bound. -/
theorem max_depth_boundary (G : Graph) (s e : String) (d : Nat) :
    (d < 1 ∨ 15 < d →
      apiGetLearningPath G s e d =
        Except.error "validation error: max_depth out of range") ∧
    (1 ≤ d → d ≤ 15 →
      apiGetLearningPath G s e d = Except.ok (getLearningPath G s e d)) ∧
    (∀ s0 e0, (nameMatches G s).head? = some s0 →
      (nameMatches G e).head? = some e0 →
      ∀ a ∈ nameMatches G s, ∀ b ∈ nameMatches G e,
        ∀ n, 1 ≤ n → n ≤ d → PWalk G a.id b.id n →
          (getLearningPath G s e d).message = "Path found successfully") := by
  refine ⟨?_, ?_, ?_⟩
  · intro h
    unfold apiGetLearningPath
    rw [if_pos]
    simp only [decide_eq_true_eq, Bool.or_eq_true]
    omega
  · intro h1 h2
    unfold apiGetLearningPath
    rw [if_neg]
    simp only [decide_eq_true_eq, Bool.or_eq_true]
    omega
  · intro s0 e0 hs he a ha b hb n h1 h2 hw
    rw [glp_eq_phase2 hs he]
    rcases hps : pathSearch G s e d with _ | w
    · exfalso
      unfold pathSearch at hps
      have hall := List.findSome?_eq_none_iff.mp hps
      have hmem : (a, b) ∈ matchPairs (nameMatches G s) (nameMatches G e) :=
        mem_matchPairs.mpr ⟨ha, hb⟩
      exact pwalk_shortestWalk_ne_none hw h1 h2 (hall (a, b) hmem)
    · rfl

/-- A single `PREREQUISITE_FOR` edge between two nodes. -/
def srcNode : Node := ⟨0, "Src", ["Topic"], none, none⟩

def dstNode : Node := ⟨1, "Dst", ["Topic"], none, none⟩

def gTwo : Graph := ⟨[srcNode, dstNode], [⟨0, 1, "PREREQUISITE_FOR", none⟩]⟩

/-- Witness for C5: depth 20 is rejected by the HTTP layer, depth 8 passes
through, and the engine run directly at depth 20 still succeeds. -/
theorem max_depth_boundary_witness :
    apiGetLearningPath gTwo "Src" "Dst" 20 =
      Except.error "validation error: max_depth out of range" ∧
    apiGetLearningPath gTwo "Src" "Dst" 8 =
      Except.ok (getLearningPath gTwo "Src" "Dst" 8) ∧
    (getLearningPath gTwo "Src" "Dst" 20).message = "Path found successfully" := by
  have h20 := max_depth_boundary gTwo "Src" "Dst" 20
  have h8 := max_depth_boundary gTwo "Src" "Dst" 8
  refine ⟨h20.1 (by omega), h8.2.1 (by omega) (by omega), ?_⟩
  exact h20.2.2 srcNode dstNode (by decide) (by decide) srcNode (by decide)
    dstNode (by decide) 1 (by omega) (by omega) (PWalk.single (by decide))

/-! ## C1 -/

/-- C1: `get_learning_path` is two-phase.  If either endpoint fails to
resolve, the result is the nodes-not-found envelope (`path_length 0`, absent
endpoints, the "not found" message) and the path search never runs — the
result is the same as on the edgeless graph.  If both resolve but no
`PREREQUISITE_FOR` path of at most `max_depth` hops connects any matching
pair, the result has `path_length 0`, the distinct "no path within depth
limit" message, and the resolved endpoints populated. -/
theorem learning_path_two_phase (G : Graph) (s e : String) (d : Nat) :
    ((nameMatches G s).head? = none ∨ (nameMatches G e).head? = none →
      getLearningPath G s e d = pathNotFound ∧
      getLearningPath G s e d = getLearningPath ⟨G.nodes, []⟩ s e d) ∧
    (∀ s0 e0, (nameMatches G s).head? = some s0 →
      (nameMatches G e).head? = some e0 →
      (∀ a ∈ nameMatches G s, ∀ b ∈ nameMatches G e,
        ∀ n, 1 ≤ n → n ≤ d → ¬ PWalk G a.id b.id n) →
      (getLearningPath G s e d).path_length = 0 ∧
      (getLearningPath G s e d).message = "No path found within depth limit" ∧
      (getLearningPath G s e d).start_node = some (rawOut s0) ∧
      (getLearningPath G s e d).end_node = some (rawOut e0)) := by
  constructor
  · intro h
    have h1 : getLearningPath G s e d = pathNotFound := glp_eq_not_found h
    have h2 : getLearningPath ⟨G.nodes, []⟩ s e d = pathNotFound :=
      glp_eq_not_found h
    exact ⟨h1, h1.trans h2.symm⟩
  · intro s0 e0 hs he hnp
    have hps : pathSearch G s e d = none := by
      unfold pathSearch
      rw [List.findSome?_eq_none_iff]
      intro p hp
      rcases mem_matchPairs.mp hp with ⟨hp1, hp2⟩
      cases hsw : shortestWalk G p.1.id p.2.id d with
      | none => rfl
      | some w =>
        exfalso
        rcases shortestWalk_some_pwalk hsw with ⟨j, hj1, hj2, hpw⟩
        exact hnp p.1 hp1 p.2 hp2 j hj1 hj2 hpw
    rw [glp_eq_phase2 hs he, hps]
    exact ⟨rfl, rfl, rfl, rfl⟩

/-- Witness for C1: an unresolved endpoint yields the not-found envelope on
`gOneTopic`; on `gTwo` queried backwards both endpoints resolve but no path
exists within depth 3, yielding the no-path envelope with populated
endpoints. -/
theorem learning_path_two_phase_witness :
    getLearningPath gOneTopic "zzz" "Graphs" 5 = pathNotFound ∧
    (getLearningPath gTwo "Dst" "Src" 3).message =
      "No path found within depth limit" ∧
    (getLearningPath gTwo "Dst" "Src" 3).start_node = some (rawOut dstNode) ∧
    (getLearningPath gTwo "Dst" "Src" 3).end_node = some (rawOut srcNode) := by
  have ha := learning_path_two_phase gOneTopic "zzz" "Graphs" 5
  have hb := learning_path_two_phase gTwo "Dst" "Src" 3
  have hnp : ∀ a ∈ nameMatches gTwo "Dst", ∀ b ∈ nameMatches gTwo "Src",
      ∀ n, 1 ≤ n → n ≤ 3 → ¬ PWalk gTwo a.id b.id n := by
    intro a ha2 b hb2 n h1 h2 hw
    rw [show nameMatches gTwo "Dst" = [dstNode] from by decide] at ha2
    rw [show nameMatches gTwo "Src" = [srcNode] from by decide] at hb2
    obtain rfl := List.mem_singleton.mp ha2
    obtain rfl := List.mem_singleton.mp hb2
    exact pwalk_shortestWalk_ne_none hw h1 h2 (by decide)
  have h2 := hb.2 dstNode srcNode (by decide) (by decide) hnp
  exact ⟨(ha.1 (Or.inl (by decide))).1, h2.2.1, h2.2.2.1, h2.2.2.2⟩

/-! ## C2 -/

/-- An undirected three-node chain for the context fixture. -/
def gCtx : Graph :=
  ⟨[⟨0, "Ca", ["Topic"], none, none⟩,
    ⟨1, "Cb", ["Subtopic"], none, none⟩,
    ⟨2, "Cc", ["Subtopic"], none, none⟩],
   [⟨0, 1, "HAS_SUBTOPIC", none⟩, ⟨1, 2, "CONTAINS", none⟩]⟩

/-- C2: the context traversal never includes a node farther than `depth`
hops from the resolved anchor, never counts a node twice, and excludes the
anchor itself.  (`get_context` is absent from the source tree; `getContext`
is modelled from the spec, §4.5.) -/
theorem context_depth_bounded (G : Graph) (q : String) (depth : Nat) (a : Node)
    (h : (getContext G q depth).node = some a) (_hd : 1 ≤ depth) :
    (∀ x ∈ (getContext G q depth).connected_nodes, ReachWithin G a x depth) ∧
    (getContext G q depth).connected_nodes.Nodup ∧
    a ∉ (getContext G q depth).connected_nodes := by
  rcases hh : (nameMatches G q).head? with _ | a0
  · unfold getContext at h
    rw [hh] at h
    simp at h
  · unfold getContext at h ⊢
    rw [hh] at h ⊢
    simp only [Option.some.injEq] at h
    subst h
    have hbase : ∀ x ∈ [a0], ReachWithin G a0 x 0 := by
      intro x hx
      rw [List.mem_singleton.mp hx]
      exact ReachWithin.refl 0
    refine ⟨?_, ?_, ?_⟩
    · intro x hx
      have hx2 := (List.mem_filter.mp hx).1
      have hr := bfsAux_reach G a0 depth 0 [a0] [a0] hbase hbase x hx2
      simpa using hr
    · exact (bfsAux_nodup G depth [a0] [a0] (List.nodup_singleton a0)).filter _
    · intro hmem
      have hne := (List.mem_filter.mp hmem).2
      simp at hne

/-- Witness for C2 on the chain `Ca — Cb — Cc`: at depth 1 the connected set
is exactly `[Cb]`, so `Cc` (shortest route 2 hops) is excluded. -/
theorem context_depth_bounded_witness :
    (∀ x ∈ (getContext gCtx "Ca" 1).connected_nodes,
      ReachWithin gCtx ⟨0, "Ca", ["Topic"], none, none⟩ x 1) ∧
    (getContext gCtx "Ca" 1).connected_nodes.Nodup ∧
    (getContext gCtx "Ca" 1).connected_nodes =
      [⟨1, "Cb", ["Subtopic"], none, none⟩] := by
  have h := context_depth_bounded gCtx "Ca" 1
    ⟨0, "Ca", ["Topic"], none, none⟩ (by decide) (by decide)
  exact ⟨h.1, h.2.1, by decide⟩

end AdaptiLearn
